import Mathlib

/-!
Verification of the lorawan module's control-plane code: the MAC command
codec, the duty-cycle channel manager, the `LoraTag` packet tag and the
`LoraPacketTracker` statistics functions.

Bytes are modelled as natural numbers below 256, byte buffers as
`List Nat`, ns-3 `Time` values as integers (nanosecond time steps), and
`double` values that are only ever copied byte-for-byte (never computed
with) as their 64-bit bit patterns.
-/

namespace Lorawan

/-! ### Byte-buffer primitives (model of ns-3 `TagBuffer` reads and writes)

`TagBuffer::WriteU8` appends one byte; `WriteU16` appends the two bytes of
a 16-bit value (low byte first); `WriteDouble` copies the eight bytes of
the `double`'s in-memory representation (modelled low byte first; the
matching `ReadDouble` copies the same bytes back, so the byte order is
internally consistent).  A `double` field is modelled by its 64-bit bit
pattern, which the write/read pair transports unchanged. -/

/-- Model of `TagBuffer::WriteU8`: one byte. -/
def writeU8 (v : Nat) : List Nat := [v % 256]

/-- Model of `TagBuffer::WriteU16`: two bytes, low byte first. -/
def writeU16 (v : Nat) : List Nat := [v % 256, v / 256 % 256]

/-- Model of `TagBuffer::WriteDouble`: the eight bytes of the double's
bit pattern, low byte first. -/
def writeDouble (v : Nat) : List Nat :=
  [v % 256, v / 2 ^ 8 % 256, v / 2 ^ 16 % 256, v / 2 ^ 24 % 256,
   v / 2 ^ 32 % 256, v / 2 ^ 40 % 256, v / 2 ^ 48 % 256, v / 2 ^ 56 % 256]

/-- Model of `TagBuffer::ReadU8`: take one byte off the buffer. -/
def readU8 : List Nat → Option (Nat × List Nat)
  | b :: rest => some (b, rest)
  | [] => none

/-- Model of `TagBuffer::ReadU16`: take two bytes, low byte first. -/
def readU16 : List Nat → Option (Nat × List Nat)
  | b0 :: b1 :: rest => some (b0 + 2 ^ 8 * b1, rest)
  | _ => none

/-- Model of `TagBuffer::ReadDouble`: take eight bytes, low byte first. -/
def readDouble : List Nat → Option (Nat × List Nat)
  | b0 :: b1 :: b2 :: b3 :: b4 :: b5 :: b6 :: b7 :: rest =>
    some (b0 + 2 ^ 8 * b1 + 2 ^ 16 * b2 + 2 ^ 24 * b3 +
          2 ^ 32 * b4 + 2 ^ 40 * b5 + 2 ^ 48 * b6 + 2 ^ 56 * b7, rest)
  | _ => none

/-! ### `LoraTag` (from `lora-tag.cc`) -/

/-- The `LoraTag` fields, in the order `LoraTag::Serialize` writes them.
`m_sf`, `m_destroyedBy`, `m_dataRate`, `m_numTx` are `uint8_t`,
`m_nodeId` is `uint16_t`, and `m_receivePower`, `m_frequency` are
`double`s modelled by their 64-bit bit patterns. -/
structure LoraTag where
  m_sf : Nat
  m_destroyedBy : Nat
  m_receivePower : Nat
  m_dataRate : Nat
  m_frequency : Nat
  m_nodeId : Nat
  m_numTx : Nat
deriving DecidableEq, Repr

/-- `LoraTag::GetSerializedSize`: `6 + 2 * sizeof(double)` with
`sizeof(double) = 8`. -/
def LoraTag.GetSerializedSize (_t : LoraTag) : Nat := 6 + 2 * 8

/-- `LoraTag::Serialize`: writes `m_sf`, `m_destroyedBy`,
`m_receivePower`, `m_dataRate`, `m_frequency`, `m_nodeId`, `m_numTx`
in that order. -/
def LoraTag.Serialize (t : LoraTag) : List Nat :=
  writeU8 t.m_sf ++ writeU8 t.m_destroyedBy ++ writeDouble t.m_receivePower ++
    writeU8 t.m_dataRate ++ writeDouble t.m_frequency ++ writeU16 t.m_nodeId ++
    writeU8 t.m_numTx

/-- `LoraTag::Deserialize`: reads the seven fields back in the same
order. -/
def LoraTag.Deserialize (bs : List Nat) : Option LoraTag := do
  let (sf, bs) ← readU8 bs
  let (destroyedBy, bs) ← readU8 bs
  let (receivePower, bs) ← readDouble bs
  let (dataRate, bs) ← readU8 bs
  let (frequency, bs) ← readDouble bs
  let (nodeId, bs) ← readU16 bs
  let (numTx, _bs) ← readU8 bs
  pure ⟨sf, destroyedBy, receivePower, dataRate, frequency, nodeId, numTx⟩

/-- Field ranges guaranteed by the C++ field types (`uint8_t`,
`uint16_t`, 64-bit `double` bit patterns). -/
def LoraTag.Valid (t : LoraTag) : Prop :=
  t.m_sf < 256 ∧ t.m_destroyedBy < 256 ∧ t.m_receivePower < 2 ^ 64 ∧
    t.m_dataRate < 256 ∧ t.m_frequency < 2 ^ 64 ∧ t.m_nodeId < 2 ^ 16 ∧
    t.m_numTx < 256

instance (t : LoraTag) : Decidable t.Valid := by
  unfold LoraTag.Valid
  infer_instance

/-! ### MAC command codec (`mac-command.h`; bodies modelled from the spec)

Only the header `mac-command.h` is under `src/`: it declares the
`MacCommandType` enum, the abstract `MacCommand` interface
(`Serialize`/`Deserialize`/`GetSerializedSize`/`GetCIDFromMacCommand`)
and each variant's fields, but the method bodies are not in the
repository.  The codec behaviour below is therefore modelled from the
spec (its CID-table contract, the wire-body table of §4.1 and the
envelope contract of §6). -/

/-- The `MacCommandType` enum from `mac-command.h`. -/
inductive MacCommandType
  | INVALID
  | LINK_CHECK_REQ
  | LINK_CHECK_ANS
  | LINK_ADR_REQ
  | LINK_ADR_ANS
  | DUTY_CYCLE_REQ
  | DUTY_CYCLE_ANS
  | RX_PARAM_SETUP_REQ
  | RX_PARAM_SETUP_ANS
  | DEV_STATUS_REQ
  | DEV_STATUS_ANS
  | NEW_CHANNEL_REQ
  | NEW_CHANNEL_ANS
  | RX_TIMING_SETUP_REQ
  | RX_TIMING_SETUP_ANS
  | TX_PARAM_SETUP_REQ
  | TX_PARAM_SETUP_ANS
  | DL_CHANNEL_REQ
  | DL_CHANNEL_ANS
deriving DecidableEq, Repr, Fintype

/-- Modelled from the spec: the body of `MacCommand::GetCIDFromMacCommand`
is missing from `src/` (only its declaration in `mac-command.h` is
present).  The spec describes it as one direction of "a bidirectional
fixed table; every command type maps to exactly one CID and vice versa;
lookup of an unregistered type is an error".  The spec does not list the
concrete CID bytes, so the table assigns each registered type a distinct
byte in enum order; `INVALID` is unregistered and its lookup fails. -/
def GetCIDFromMacCommand : MacCommandType → Option Nat
  | .INVALID => none
  | .LINK_CHECK_REQ => some 1
  | .LINK_CHECK_ANS => some 2
  | .LINK_ADR_REQ => some 3
  | .LINK_ADR_ANS => some 4
  | .DUTY_CYCLE_REQ => some 5
  | .DUTY_CYCLE_ANS => some 6
  | .RX_PARAM_SETUP_REQ => some 7
  | .RX_PARAM_SETUP_ANS => some 8
  | .DEV_STATUS_REQ => some 9
  | .DEV_STATUS_ANS => some 10
  | .NEW_CHANNEL_REQ => some 11
  | .NEW_CHANNEL_ANS => some 12
  | .RX_TIMING_SETUP_REQ => some 13
  | .RX_TIMING_SETUP_ANS => some 14
  | .TX_PARAM_SETUP_REQ => some 15
  | .TX_PARAM_SETUP_ANS => some 16
  | .DL_CHANNEL_REQ => some 17
  | .DL_CHANNEL_ANS => some 18

/-- Modelled from the spec: the rows of the "bidirectional fixed table"
pairing each registered command type with its CID byte; `INVALID` has no
row. -/
def cidTable : List (MacCommandType × Nat) :=
  [(.LINK_CHECK_REQ, 1), (.LINK_CHECK_ANS, 2), (.LINK_ADR_REQ, 3),
   (.LINK_ADR_ANS, 4), (.DUTY_CYCLE_REQ, 5), (.DUTY_CYCLE_ANS, 6),
   (.RX_PARAM_SETUP_REQ, 7), (.RX_PARAM_SETUP_ANS, 8), (.DEV_STATUS_REQ, 9),
   (.DEV_STATUS_ANS, 10), (.NEW_CHANNEL_REQ, 11), (.NEW_CHANNEL_ANS, 12),
   (.RX_TIMING_SETUP_REQ, 13), (.RX_TIMING_SETUP_ANS, 14),
   (.TX_PARAM_SETUP_REQ, 15), (.TX_PARAM_SETUP_ANS, 16),
   (.DL_CHANNEL_REQ, 17), (.DL_CHANNEL_ANS, 18)]

/-- Modelled from the spec: the inverse direction of the bidirectional
fixed CID table ("`TypeFromCID`"); a byte that is not a registered CID
has no command type. -/
def TypeFromCID (cid : Nat) : Option MacCommandType :=
  (cidTable.find? fun p => p.2 == cid).map fun p => p.1

/-- The closed set of command variants whose wire bodies the spec
specifies (§4.1's table of representative variants), as the
tagged-variant sum type the spec's design notes prescribe.  Field names
and order follow the classes in `mac-command.h`.  Frequencies are
carried in the 24-bit wire unit of 100 Hz. -/
inductive MacCommand
  | LinkCheckReq
  | LinkCheckAns (m_margin m_gwCnt : Nat)
  | LinkAdrReq (m_dataRate m_txPower : Nat) (m_channelMask : Nat)
      (m_chMaskCntl m_nbRep : Nat)
  | LinkAdrAns (m_powerAck m_dataRateAck m_channelMaskAck : Bool)
  | DutyCycleReq (m_maxDCycle : Nat)
  | RxParamSetupReq (m_rx1DrOffset m_rx2DataRate : Nat) (m_frequency : Nat)
  | DevStatusAns (m_battery m_margin : Nat)
  | NewChannelReq (m_chIndex : Nat) (m_frequency : Nat)
      (m_minDataRate m_maxDataRate : Nat)
deriving DecidableEq, Repr

/-- The `MacCommandType` tag of each variant (`m_commandType` in the
source). -/
def MacCommand.commandType : MacCommand → MacCommandType
  | .LinkCheckReq => .LINK_CHECK_REQ
  | .LinkCheckAns _ _ => .LINK_CHECK_ANS
  | .LinkAdrReq _ _ _ _ _ => .LINK_ADR_REQ
  | .LinkAdrAns _ _ _ => .LINK_ADR_ANS
  | .DutyCycleReq _ => .DUTY_CYCLE_REQ
  | .RxParamSetupReq _ _ _ => .RX_PARAM_SETUP_REQ
  | .DevStatusAns _ _ => .DEV_STATUS_ANS
  | .NewChannelReq _ _ _ _ => .NEW_CHANNEL_REQ

/-- `GetSerializedSize`: the body size in bytes, excluding the CID byte
(spec §4.1's table: 0, 2, 4, 1, 1, 4, 2, 5). -/
def MacCommand.GetSerializedSize : MacCommand → Nat
  | .LinkCheckReq => 0
  | .LinkCheckAns _ _ => 2
  | .LinkAdrReq _ _ _ _ _ => 4
  | .LinkAdrAns _ _ _ => 1
  | .DutyCycleReq _ => 1
  | .RxParamSetupReq _ _ _ => 4
  | .DevStatusAns _ _ => 2
  | .NewChannelReq _ _ _ _ => 5

/-- Modelled from the spec: each variant's wire body (§4.1's table).
Multi-byte integers are big-endian except the `LinkAdrReq` channel mask,
which is little-endian per the standard; `dataRateTxPower`,
`redundancy`, `status`, `dlSettings` and `drRange` are the packed bytes
the table describes. -/
def MacCommand.SerializeBody : MacCommand → List Nat
  | .LinkCheckReq => []
  | .LinkCheckAns margin gwCnt => [margin, gwCnt]
  | .LinkAdrReq dataRate txPower channelMask chMaskCntl nbRep =>
      [dataRate * 16 + txPower, channelMask % 256, channelMask / 256 % 256,
       chMaskCntl * 16 + nbRep]
  | .LinkAdrAns powerAck dataRateAck channelMaskAck =>
      [powerAck.toNat * 4 + dataRateAck.toNat * 2 + channelMaskAck.toNat]
  | .DutyCycleReq maxDCycle => [maxDCycle]
  | .RxParamSetupReq rx1DrOffset rx2DataRate frequency =>
      [rx1DrOffset * 16 + rx2DataRate,
       frequency / 2 ^ 16 % 256, frequency / 2 ^ 8 % 256, frequency % 256]
  | .DevStatusAns battery margin => [battery, margin]
  | .NewChannelReq chIndex frequency minDataRate maxDataRate =>
      [chIndex, frequency / 2 ^ 16 % 256, frequency / 2 ^ 8 % 256,
       frequency % 256, maxDataRate * 16 + minDataRate]

/-- Modelled from the spec: `Serialize` "writes CID followed by the
command's fixed-width fields in protocol-defined order". -/
def MacCommand.Serialize (c : MacCommand) : List Nat :=
  (GetCIDFromMacCommand c.commandType).getD 0 :: c.SerializeBody

/-- Modelled from the spec: the per-type body parser, reading the fields
"in the same order" they were serialized; a buffer holding fewer bytes
than the body needs fails, as does a type whose body the spec does not
specify. -/
def MacCommand.DeserializeBody : MacCommandType → List Nat → Option MacCommand
  | .LINK_CHECK_REQ, _ => some .LinkCheckReq
  | .LINK_CHECK_ANS, margin :: gwCnt :: _ => some (.LinkCheckAns margin gwCnt)
  | .LINK_ADR_REQ, b0 :: b1 :: b2 :: b3 :: _ =>
      some (.LinkAdrReq (b0 / 16 % 16) (b0 % 16) (b1 + 256 * b2)
        (b3 / 16 % 8) (b3 % 16))
  | .LINK_ADR_ANS, b :: _ =>
      some (.LinkAdrAns (b / 4 % 2 == 1) (b / 2 % 2 == 1) (b % 2 == 1))
  | .DUTY_CYCLE_REQ, b :: _ => some (.DutyCycleReq b)
  | .RX_PARAM_SETUP_REQ, b0 :: b1 :: b2 :: b3 :: _ =>
      some (.RxParamSetupReq (b0 / 16 % 8) (b0 % 16)
        (b1 * 2 ^ 16 + b2 * 2 ^ 8 + b3))
  | .DEV_STATUS_ANS, battery :: margin :: _ =>
      some (.DevStatusAns battery (margin % 64))
  | .NEW_CHANNEL_REQ, b0 :: b1 :: b2 :: b3 :: b4 :: _ =>
      some (.NewChannelReq b0 (b1 * 2 ^ 16 + b2 * 2 ^ 8 + b3)
        (b4 % 16) (b4 / 16 % 16))
  | _, _ => none

/-- Modelled from the spec: the codec envelope.  The cursor is at the
CID byte; the CID selects the variant, the body is parsed, and the call
reports `GetSerializedSize() + 1` bytes consumed (CID plus body).  An
unrecognized CID or a buffer shorter than the declared body size is a
failure that aborts the frame. -/
def MacCommand.Deserialize (bs : List Nat) : Option (MacCommand × Nat) :=
  match bs with
  | [] => none
  | cid :: body =>
    match TypeFromCID cid with
    | none => none
    | some t =>
      match DeserializeBody t body with
      | none => none
      | some cmd => some (cmd, cmd.GetSerializedSize + 1)

/-- The valid range of each variant's fields: byte fields below 256,
nibble fields below 16, the 3-bit `chMaskCntl` and `rx1DrOffset` below
8, the 16-bit channel mask below 2^16, 24-bit frequencies below 2^24
and the signed 6-bit `DevStatusAns` margin pattern below 64. -/
def MacCommand.Valid : MacCommand → Prop
  | .LinkCheckReq => True
  | .LinkCheckAns margin gwCnt => margin < 256 ∧ gwCnt < 256
  | .LinkAdrReq dataRate txPower channelMask chMaskCntl nbRep =>
      dataRate < 16 ∧ txPower < 16 ∧ channelMask < 2 ^ 16 ∧
        chMaskCntl < 8 ∧ nbRep < 16
  | .LinkAdrAns _ _ _ => True
  | .DutyCycleReq maxDCycle => maxDCycle < 256
  | .RxParamSetupReq rx1DrOffset rx2DataRate frequency =>
      rx1DrOffset < 8 ∧ rx2DataRate < 16 ∧ frequency < 2 ^ 24
  | .DevStatusAns battery margin => battery < 256 ∧ margin < 64
  | .NewChannelReq chIndex frequency minDataRate maxDataRate =>
      chIndex < 256 ∧ frequency < 2 ^ 24 ∧ minDataRate < 16 ∧ maxDataRate < 16

instance (c : MacCommand) : Decidable c.Valid := by
  cases c <;> (unfold MacCommand.Valid; infer_instance)

/-- The body size of each command type the spec's wire table covers;
`none` for the types whose bodies the spec leaves unspecified. -/
def MacBodySize : MacCommandType → Option Nat
  | .LINK_CHECK_REQ => some 0
  | .LINK_CHECK_ANS => some 2
  | .LINK_ADR_REQ => some 4
  | .LINK_ADR_ANS => some 1
  | .DUTY_CYCLE_REQ => some 1
  | .RX_PARAM_SETUP_REQ => some 4
  | .DEV_STATUS_ANS => some 2
  | .NEW_CHANNEL_REQ => some 5
  | _ => none

/-! ### Channel / duty-cycle manager
(`logical-lora-channel-helper.h`; behaviour modelled from the spec)

Only the header is under `src/`: it declares the operations and the
member lists `m_subBandList`, `m_channelList`,
`m_nextAggregatedTransmissionTime` and `m_aggregatedDutyCycle`, but the
method bodies are not in the repository.  The behaviour below is
modelled from the spec (§4.2's operation contracts and §4.2/§8's
duty-cycle update rule).  Frequencies, durations, instants and
duty-cycle fractions are modelled as rationals; the simulator clock
("now") is passed explicitly. -/

/-- The `SubBand` attributes the spec lists: an inclusive frequency
range, a duty-cycle fraction, a maximum transmit power and the mutable
`nextTransmitTime` clock. -/
structure SubBand where
  firstFrequency : ℚ
  lastFrequency : ℚ
  dutyCycle : ℚ
  maxTxPowerDbm : ℚ
  nextTransmitTime : ℚ
deriving DecidableEq, Repr

/-- The `LogicalLoraChannel` attributes the spec lists: a frequency, an
enabled flag and an inclusive data-rate range. -/
structure LogicalLoraChannel where
  frequency : ℚ
  enabled : Bool
  minDataRate : Nat
  maxDataRate : Nat
deriving DecidableEq, Repr

/-- The manager state: the members declared in
`logical-lora-channel-helper.h`. -/
structure LogicalLoraChannelHelper where
  m_subBandList : List SubBand
  m_channelList : List LogicalLoraChannel
  m_nextAggregatedTransmissionTime : ℚ
  m_aggregatedDutyCycle : ℚ
deriving DecidableEq, Repr

/-- Modelled from the spec: containment of a frequency in a sub-band's
inclusive `[firstFrequency, lastFrequency]` range. -/
def SubBand.Contains (sb : SubBand) (frequency : ℚ) : Prop :=
  sb.firstFrequency ≤ frequency ∧ frequency ≤ sb.lastFrequency

instance (sb : SubBand) (frequency : ℚ) : Decidable (sb.Contains frequency) := by
  unfold SubBand.Contains
  infer_instance

/-- Modelled from the spec: `GetSubBandFromFrequency` is a "linear scan"
that "returns the first SubBand whose `[first,last]` contains `freq`;
fails if none match". -/
def GetSubBandFromFrequencyList : List SubBand → ℚ → Option SubBand
  | [], _ => none
  | sb :: rest, frequency =>
      if sb.Contains frequency then some sb
      else GetSubBandFromFrequencyList rest frequency

/-- `LogicalLoraChannelHelper::GetSubBandFromFrequency` as the scan over
the registered sub-band list. -/
def LogicalLoraChannelHelper.GetSubBandFromFrequency
    (h : LogicalLoraChannelHelper) (frequency : ℚ) : Option SubBand :=
  GetSubBandFromFrequencyList h.m_subBandList frequency

/-- Modelled from the spec: `GetSubBandFromChannel` "delegates to the
frequency lookup using the channel's frequency". -/
def LogicalLoraChannelHelper.GetSubBandFromChannel
    (h : LogicalLoraChannelHelper) (channel : LogicalLoraChannel) :
    Option SubBand :=
  h.GetSubBandFromFrequency channel.frequency

/-- Modelled from the spec: `GetWaitingTime(channel)` is
`max(0, subBand.nextTransmitTime - now)` for the sub-band containing the
channel; a channel whose frequency no registered sub-band covers is a
configuration error reported as a failure. -/
def LogicalLoraChannelHelper.GetWaitingTime (h : LogicalLoraChannelHelper)
    (channel : LogicalLoraChannel) (now : ℚ) : Option ℚ :=
  (h.GetSubBandFromChannel channel).map fun sb =>
    max 0 (sb.nextTransmitTime - now)

/-- Modelled from the spec: `GetAggregatedWaitingTime()` is
`max(0, aggregateNextTransmitTime - now)`. -/
def LogicalLoraChannelHelper.GetAggregatedWaitingTime
    (h : LogicalLoraChannelHelper) (now : ℚ) : ℚ :=
  max 0 (h.m_nextAggregatedTransmissionTime - now)

/-- Modelled from the spec: the cooldown imposed by a transmission of
length `duration` starting `now` on a band with the given duty-cycle
fraction: `now + duration * (1/dutyCycle - 1)`. -/
def NextTransmissionTime (now duration dutyCycle : ℚ) : ℚ :=
  now + duration * (1 / dutyCycle - 1)

/-- Modelled from the spec: `AddEvent`'s update of the sub-band list.
The first sub-band containing the channel's frequency has its
`nextTransmitTime` advanced to the computed cooldown; "if a new event's
computed time is earlier than the current value, the stricter/later of
the two must be kept", so the clock never moves backward. -/
def AddEventSubBands : List SubBand → ℚ → ℚ → ℚ → List SubBand
  | [], _, _, _ => []
  | sb :: rest, frequency, duration, now =>
      if sb.Contains frequency then
        { sb with
          nextTransmitTime :=
            max sb.nextTransmitTime
              (NextTransmissionTime now duration sb.dutyCycle) } :: rest
      else sb :: AddEventSubBands rest frequency duration now

/-- Modelled from the spec: `AddEvent(duration, channel)` updates both
the containing sub-band's clock and the aggregate clock with the same
formula (the aggregate one using the aggregate duty-cycle fraction),
each keeping the stricter (later) of the stored and computed times. -/
def LogicalLoraChannelHelper.AddEvent (h : LogicalLoraChannelHelper)
    (duration : ℚ) (channel : LogicalLoraChannel) (now : ℚ) :
    LogicalLoraChannelHelper :=
  { h with
    m_subBandList :=
      AddEventSubBands h.m_subBandList channel.frequency duration now,
    m_nextAggregatedTransmissionTime :=
      max h.m_nextAggregatedTransmissionTime
        (NextTransmissionTime now duration h.m_aggregatedDutyCycle) }

/-- Modelled from the spec: `SetChannel(index, channel)` "overwrites
entry `index`; fails if `index` is out of the currently allocated
range", and on failure "the manager's internal state remains unchanged
(no partial mutation)" — the failure is reported as `none` and no
modified state exists. -/
def LogicalLoraChannelHelper.SetChannel (h : LogicalLoraChannelHelper)
    (chIndex : Nat) (logicalChannel : LogicalLoraChannel) :
    Option LogicalLoraChannelHelper :=
  if chIndex < h.m_channelList.length then
    some { h with m_channelList := h.m_channelList.set chIndex logicalChannel }
  else none

/-- One recorded `AddEvent` call: its duration, channel and the
simulator time at which it was made. -/
structure TxEvent where
  duration : ℚ
  channel : LogicalLoraChannel
  time : ℚ
deriving DecidableEq, Repr

/-- A sequence of `AddEvent` calls applied in order. -/
def LogicalLoraChannelHelper.AddEvents (h : LogicalLoraChannelHelper) :
    List TxEvent → LogicalLoraChannelHelper
  | [] => h
  | e :: es => (h.AddEvent e.duration e.channel e.time).AddEvents es

/-! ### `LoraPacketTracker` (from `lora-packet-tracker.cc`)

`m_packetTracker` and `m_macPacketTracker` are `std::map`s keyed by
packet pointer; the counting functions only iterate over their entries,
so the trackers are modelled as lists of entries.  ns-3 `Time` values
are the underlying `int64_t` nanosecond time steps, modelled as `Int`. -/

/-- The `PhyPacketOutcome` values the counting switch distinguishes. -/
inductive PhyPacketOutcome
  | RECEIVED
  | INTERFERED
  | NO_MORE_RECEIVERS
  | UNDER_SENSITIVITY
  | LOST_BECAUSE_TX
  | UNSET
deriving DecidableEq, Repr

/-- A `PacketStatus` entry of `m_packetTracker`: the send time, the
sender id and the per-gateway outcome map (an association list standing
for `std::map<int, PhyPacketOutcome>`). -/
structure PacketStatus where
  sendTime : Int
  senderId : Nat
  outcomes : List (Int × PhyPacketOutcome)
deriving DecidableEq, Repr

/-- `LoraPacketTracker::CountPhyPacketsPerGw`: six counters
`[totPacketsSent, receivedPackets, interferedPackets, noMoreGwPackets,
underSensitivityPackets, lostBecauseTxPackets]`, accumulated over the
tracker; a packet is counted when its send time lies in
`[startTime, stopTime]`, and classified when the gateway has an outcome
for it (`outcomes.count(gwId) > 0` then `outcomes.at(gwId)`). -/
def LoraPacketTracker.CountPhyPacketsPerGw
    (m_packetTracker : List PacketStatus)
    (startTime stopTime : Int) (gwId : Int) : List Nat :=
  m_packetTracker.foldl
    (fun packetCounts st =>
      if st.sendTime ≥ startTime ∧ st.sendTime ≤ stopTime then
        let packetCounts := packetCounts.set 0 (packetCounts.getD 0 0 + 1)
        match st.outcomes.lookup gwId with
        | some .RECEIVED => packetCounts.set 1 (packetCounts.getD 1 0 + 1)
        | some .INTERFERED => packetCounts.set 2 (packetCounts.getD 2 0 + 1)
        | some .NO_MORE_RECEIVERS => packetCounts.set 3 (packetCounts.getD 3 0 + 1)
        | some .UNDER_SENSITIVITY => packetCounts.set 4 (packetCounts.getD 4 0 + 1)
        | some .LOST_BECAUSE_TX => packetCounts.set 5 (packetCounts.getD 5 0 + 1)
        | some .UNSET => packetCounts
        | none => packetCounts
      else packetCounts)
    (List.replicate 6 0)

/-- `LoraPacketTracker::PrintPhyPacketsPerGw`: the same counting loop,
duplicated in the source, followed by
`for (i = 0; i < 6; ++i) output += std::to_string(packetCounts.at(i)) + " "`. -/
def LoraPacketTracker.PrintPhyPacketsPerGw
    (m_packetTracker : List PacketStatus)
    (startTime stopTime : Int) (gwId : Int) : String :=
  let packetCounts :=
    m_packetTracker.foldl
      (fun packetCounts st =>
        if st.sendTime ≥ startTime ∧ st.sendTime ≤ stopTime then
          let packetCounts := packetCounts.set 0 (packetCounts.getD 0 0 + 1)
          match st.outcomes.lookup gwId with
          | some .RECEIVED => packetCounts.set 1 (packetCounts.getD 1 0 + 1)
          | some .INTERFERED => packetCounts.set 2 (packetCounts.getD 2 0 + 1)
          | some .NO_MORE_RECEIVERS => packetCounts.set 3 (packetCounts.getD 3 0 + 1)
          | some .UNDER_SENSITIVITY => packetCounts.set 4 (packetCounts.getD 4 0 + 1)
          | some .LOST_BECAUSE_TX => packetCounts.set 5 (packetCounts.getD 5 0 + 1)
          | some .UNSET => packetCounts
          | none => packetCounts
        else packetCounts)
      (List.replicate 6 0)
  (List.range 6).foldl
    (fun output i => output ++ toString (packetCounts.getD i 0) ++ " ") ""

/-- `Time::Max()` as a nanosecond time step. -/
def TimeMax : Int := 9223372036854775807

/-- A `MacPacketStatus` entry of `m_macPacketTracker`: the send time,
the spreading factor and the per-gateway reception-time map
(`std::map<int, Time>`). -/
structure MacPacketStatus where
  sendTime : Int
  sf : Nat
  receptionTimes : List (Nat × Int)
deriving DecidableEq, Repr

/-- Lookup of `receptionTimes.find(gwId)->second`.  A gateway with no
entry is modelled as the "never received" marker `Time::Max()`, the
value such a packet is compared against in
`CountMacPacketsGloballyDelay` (the C++ dereferences `find(gwId)`
unconditionally; `Time::Max()` is the defined-behaviour reading of a
packet the gateway never received). -/
def MacPacketStatus.ReceptionTimeAt (st : MacPacketStatus) (gwId : Nat) : Int :=
  (st.receptionTimes.lookup gwId).getD TimeMax

/-- Two's-complement wraparound at 32 bits, the reading under which
the overflow of the C++ `int` counter `packetsOutsideTransient` is
modelled. -/
def wrap32 (x : Int) : Int := (x + 2 ^ 31) % 2 ^ 32 - 2 ^ 31

/-- Two's-complement wraparound at 64 bits, the reading under which
the overflow of the `int64_t` time step held by an ns-3 `Time`
(`delaySum` and `Time` subtraction) is modelled. -/
def wrap64 (x : Int) : Int := (x + 2 ^ 63) % 2 ^ 64 - 2 ^ 63

/-- The body of `CountMacPacketsGloballyDelay`'s inner loop, applied to
one tracker entry: count a packet sent strictly inside
`(startTime, stopTime)`, then discount it again when its reception time
at `gwId` is `Time::Max()` or precedes its send time; otherwise add its
delay to the running sum.  The accumulator is
`(delaySum, packetsOutsideTransient)`; `packetsOutsideTransient` is a
32-bit C++ `int` and `delaySum` a 64-bit `Time`, so every arithmetic
step wraps at the corresponding width. -/
def DelayStep (startTime stopTime : Int) (gwId : Nat)
    (acc : Int × Int) (st : MacPacketStatus) : Int × Int :=
  let (delaySum, packetsOutsideTransient) := acc
  if st.sendTime > startTime ∧ st.sendTime < stopTime then
    let packetsOutsideTransient := wrap32 (packetsOutsideTransient + 1)
    if st.ReceptionTimeAt gwId = TimeMax ∨ st.ReceptionTimeAt gwId < st.sendTime then
      (delaySum, wrap32 (packetsOutsideTransient - 1))
    else
      (wrap64 (delaySum + wrap64 (st.ReceptionTimeAt gwId - st.sendTime)),
        packetsOutsideTransient)
  else (delaySum, packetsOutsideTransient)

/-- One full pass of the inner loop over `m_macPacketTracker`. -/
def DelayPass (m_macPacketTracker : List MacPacketStatus)
    (startTime stopTime : Int) (gwId : Nat) (acc : Int × Int) : Int × Int :=
  m_macPacketTracker.foldl (DelayStep startTime stopTime gwId) acc

/-- Mathematical-integer shadow of `DelayStep`, identical except that
the accumulators do not wrap.  It is a proof device, not a model of the
source: it serves to state the no-overflow side conditions under which
it coincides with `DelayStep`. -/
def DelayStepIdeal (startTime stopTime : Int) (gwId : Nat)
    (acc : Int × Int) (st : MacPacketStatus) : Int × Int :=
  let (delaySum, packetsOutsideTransient) := acc
  if st.sendTime > startTime ∧ st.sendTime < stopTime then
    let packetsOutsideTransient := packetsOutsideTransient + 1
    if st.ReceptionTimeAt gwId = TimeMax ∨ st.ReceptionTimeAt gwId < st.sendTime then
      (delaySum, packetsOutsideTransient - 1)
    else
      (delaySum + (st.ReceptionTimeAt gwId - st.sendTime), packetsOutsideTransient)
  else (delaySum, packetsOutsideTransient)

/-- One non-wrapping pass of the inner loop (proof device paired with
`DelayStepIdeal`). -/
def DelayPassIdeal (m_macPacketTracker : List MacPacketStatus)
    (startTime stopTime : Int) (gwId : Nat) (acc : Int × Int) : Int × Int :=
  m_macPacketTracker.foldl (DelayStepIdeal startTime stopTime gwId) acc

/-- `Time`-representability of a tracker entry's send and reception
times at gateway `gwId`: nonnegative simulation instants no later than
`Time::Max()`, the invariant every entry recorded from
`Simulator::Now()` satisfies. -/
def TimesOk (gwId : Nat) (st : MacPacketStatus) : Prop :=
  0 ≤ st.sendTime ∧ st.sendTime ≤ TimeMax ∧
    0 ≤ st.ReceptionTimeAt gwId ∧ st.ReceptionTimeAt gwId ≤ TimeMax

instance (gwId : Nat) (st : MacPacketStatus) : Decidable (TimesOk gwId st) := by
  unfold TimesOk
  infer_instance

/-- Iteration count of the outer
`for (uint32_t i = gwId; i < gwId + gwNum; i++)` loop, whose body never
reads `i`: the bound `gwId + gwNum` is computed in `uint32_t` and so
wraps modulo 2^32; the loop then runs `bound - gwId` times when the
bound exceeds `gwId` and zero times otherwise. -/
def OuterLoopIterations (gwId gwNum : Nat) : Nat :=
  (gwId + gwNum) % 2 ^ 32 - gwId

/-- Model of `Time::GetSeconds` composed with `std::to_string(double)`:
the nanosecond count is printed as seconds with the six fractional
digits `to_string` uses, rounding to the nearest microsecond (binary
`double` rounding is not modelled; every value evaluated in this
development is exact). -/
def SecondsString (ns : Int) : String :=
  let micro := (ns.natAbs + 500) / 1000
  (if ns < 0 ∧ micro ≠ 0 then "-" else "") ++
    toString (micro / 10 ^ 6) ++ "." ++ (toString (micro % 10 ^ 6 + 10 ^ 6)).drop 1

/-- `LoraPacketTracker::CountMacPacketsGloballyDelay` (four-argument
overload): run the inner pass once per outer-loop iteration, then—when
the packet count is nonzero—divide the nanosecond delay sum by it
(ns-3 `Time / int64_t` is truncated integer division of the time steps)
and print the average in seconds. -/
def LoraPacketTracker.CountMacPacketsGloballyDelay
    (m_macPacketTracker : List MacPacketStatus)
    (startTime stopTime : Int) (gwId gwNum : Nat) : String :=
  let result :=
    (DelayPass m_macPacketTracker startTime stopTime gwId)^[OuterLoopIterations gwId gwNum]
      (0, 0)
  let avgDelay := if result.2 ≠ 0 then Int.tdiv result.1 result.2 else 0
  SecondsString avgDelay

/-! ### Concrete fixtures used by the witnesses -/

/-- A channel at 868 MHz.  (Kernel evaluation in the witnesses needs
integer-valued rationals, so the fixtures use whole-MHz figures.) -/
def chEx : LogicalLoraChannel := ⟨868, true, 0, 5⟩

/-- A sub-band spanning [867, 869] MHz with duty cycle 1 and a clean
clock. -/
def sbEx : SubBand := ⟨867, 869, 1, 14, 0⟩

/-- A manager owning `sbEx` and `chEx`, with aggregate duty cycle 1. -/
def helperEx : LogicalLoraChannelHelper := ⟨[sbEx], [chEx], 0, 1⟩

/-- A two-packet PHY tracker. -/
def trackerEx : List PacketStatus :=
  [⟨5, 0, [(1, .RECEIVED)]⟩, ⟨7, 1, [(1, .INTERFERED)]⟩]

/-- A one-packet MAC tracker: sent at 1 ns, received 5 s later by
gateway 0. -/
def macTrackerEx : List MacPacketStatus := [⟨1, 7, [(0, 5000000001)]⟩]

/-- A one-packet MAC tracker received by the last expressible gateway
id, `2^32 - 2`. -/
def macTrackerWrap : List MacPacketStatus := [⟨1, 7, [(4294967294, 5000000001)]⟩]

/-! ### Theorems -/

/-- C8: `LoraTag::Serialize` writes exactly
`GetSerializedSize() = 6 + 2*sizeof(double)` bytes, and
`LoraTag::Deserialize` applied to those bytes restores all seven fields
to their original values. -/
theorem loraTag_serialize_roundTrip (t : LoraTag) (h : t.Valid) :
    (LoraTag.Serialize t).length = LoraTag.GetSerializedSize t ∧
      LoraTag.Deserialize (LoraTag.Serialize t) = some t := by
  obtain ⟨sf, dBy, rp, dr, fr, nid, ntx⟩ := t
  simp only [LoraTag.Valid] at h
  obtain ⟨h1, h2, h3, h4, h5, h6, h7⟩ := h
  constructor
  · rfl
  · simp only [LoraTag.Serialize, LoraTag.Deserialize,
      writeU8, writeU16, writeDouble,
      readU8, readU16, readDouble, List.cons_append, List.nil_append,
      Option.bind_eq_bind, Option.some_bind, Option.some.injEq,
      bind, pure]
    simp only [LoraTag.mk.injEq]
    refine ⟨?_, ?_, ?_, ?_, ?_, ?_, ?_⟩ <;> omega

/-- Witness for C8 at a concrete tag. -/
theorem loraTag_serialize_roundTrip_witness :
    (LoraTag.Serialize ⟨7, 1, 123456789, 5, 99999, 300, 2⟩).length =
        LoraTag.GetSerializedSize ⟨7, 1, 123456789, 5, 99999, 300, 2⟩ ∧
      LoraTag.Deserialize (LoraTag.Serialize ⟨7, 1, 123456789, 5, 99999, 300, 2⟩) =
        some ⟨7, 1, 123456789, 5, 99999, 300, 2⟩ :=
  loraTag_serialize_roundTrip ⟨7, 1, 123456789, 5, 99999, 300, 2⟩ (by decide)

/-- C4: the CID-to-command-type mapping is a fixed bijection over the 18
registered MAC command types: the inverse lookup applied to the CID of
any registered type returns that type, no two types share a CID, every
CID maps back consistently, and looking up the unregistered type fails. -/
theorem cid_bijection :
    (∀ t : MacCommandType, t ≠ .INVALID →
        (GetCIDFromMacCommand t).bind TypeFromCID = some t) ∧
      (∀ t₁ t₂ : MacCommandType, GetCIDFromMacCommand t₁ = GetCIDFromMacCommand t₂ →
        GetCIDFromMacCommand t₁ ≠ none → t₁ = t₂) ∧
      (∀ c t, TypeFromCID c = some t → GetCIDFromMacCommand t = some c) ∧
      GetCIDFromMacCommand .INVALID = none := by
  refine ⟨by decide, by decide, ?_, rfl⟩
  intro c t h
  unfold TypeFromCID at h
  rcases hf : cidTable.find? fun p => p.2 == c with _ | p
  · rw [hf] at h
    exact absurd h (by simp)
  · have hp := List.find?_some hf
    have hmem := List.mem_of_find?_eq_some hf
    rw [hf] at h
    simp at h
    subst h
    have hc : p.2 = c := by simpa using hp
    subst hc
    fin_cases hmem <;> rfl

/-- Witness for C4 at concrete inputs. -/
theorem cid_bijection_witness :
    (GetCIDFromMacCommand .LINK_ADR_REQ).bind TypeFromCID = some .LINK_ADR_REQ ∧
      GetCIDFromMacCommand .DL_CHANNEL_ANS = some 18 :=
  ⟨cid_bijection.1 .LINK_ADR_REQ (by decide),
   cid_bijection.2.2.1 18 .DL_CHANNEL_ANS (by decide)⟩

/-- C1: for every modelled command variant with fields in valid range,
deserializing the serialized bytes (with any trailing bytes after them)
reconstructs a command with identical fields and reports
`GetSerializedSize() + 1` bytes consumed, and the body the serializer
writes is exactly `GetSerializedSize()` bytes long. -/
theorem macCommand_roundTrip (c : MacCommand) (h : c.Valid) (rest : List Nat) :
    MacCommand.Deserialize (c.Serialize ++ rest) =
        some (c, c.GetSerializedSize + 1) ∧
      c.SerializeBody.length = c.GetSerializedSize := by
  cases c with
  | LinkCheckReq => exact ⟨rfl, rfl⟩
  | LinkCheckAns margin gwCnt =>
      obtain ⟨h1, h2⟩ := h
      exact ⟨rfl, rfl⟩
  | LinkAdrReq dataRate txPower channelMask chMaskCntl nbRep =>
      obtain ⟨h1, h2, h3, h4, h5⟩ := h
      refine ⟨?_, rfl⟩
      simp [MacCommand.Deserialize, MacCommand.Serialize, MacCommand.SerializeBody,
        MacCommand.commandType, GetCIDFromMacCommand, TypeFromCID, cidTable,
        MacCommand.DeserializeBody, MacCommand.GetSerializedSize]
      repeat' apply And.intro
      all_goals omega
  | LinkAdrAns powerAck dataRateAck channelMaskAck =>
      refine ⟨?_, rfl⟩
      cases powerAck <;> cases dataRateAck <;> cases channelMaskAck <;> rfl
  | DutyCycleReq maxDCycle => exact ⟨rfl, rfl⟩
  | RxParamSetupReq rx1DrOffset rx2DataRate frequency =>
      obtain ⟨h1, h2, h3⟩ := h
      refine ⟨?_, rfl⟩
      simp [MacCommand.Deserialize, MacCommand.Serialize, MacCommand.SerializeBody,
        MacCommand.commandType, GetCIDFromMacCommand, TypeFromCID, cidTable,
        MacCommand.DeserializeBody, MacCommand.GetSerializedSize]
      repeat' apply And.intro
      all_goals omega
  | DevStatusAns battery margin =>
      obtain ⟨h1, h2⟩ := h
      refine ⟨?_, rfl⟩
      simp [MacCommand.Deserialize, MacCommand.Serialize, MacCommand.SerializeBody,
        MacCommand.commandType, GetCIDFromMacCommand, TypeFromCID, cidTable,
        MacCommand.DeserializeBody, MacCommand.GetSerializedSize]
      omega
  | NewChannelReq chIndex frequency minDataRate maxDataRate =>
      obtain ⟨h1, h2, h3, h4⟩ := h
      refine ⟨?_, rfl⟩
      simp [MacCommand.Deserialize, MacCommand.Serialize, MacCommand.SerializeBody,
        MacCommand.commandType, GetCIDFromMacCommand, TypeFromCID, cidTable,
        MacCommand.DeserializeBody, MacCommand.GetSerializedSize]
      repeat' apply And.intro
      all_goals omega

/-- Witness for C1 at a concrete `LinkAdrReq`. -/
theorem macCommand_roundTrip_witness :
    MacCommand.Deserialize
        ((MacCommand.LinkAdrReq 5 3 43690 2 4).Serialize ++ [9, 9]) =
        some (MacCommand.LinkAdrReq 5 3 43690 2 4,
          (MacCommand.LinkAdrReq 5 3 43690 2 4).GetSerializedSize + 1) ∧
      (MacCommand.LinkAdrReq 5 3 43690 2 4).SerializeBody.length =
        (MacCommand.LinkAdrReq 5 3 43690 2 4).GetSerializedSize :=
  macCommand_roundTrip (.LinkAdrReq 5 3 43690 2 4) (by decide) [9, 9]

/-- C5: for every command variant the spec's wire table covers and every
CID byte naming it, `Deserialize` fails — returning the failure that
aborts the frame — exactly when the buffer holds fewer bytes after the
CID than `GetSerializedSize()` requires, and succeeds consuming
`GetSerializedSize() + 1` bytes whenever enough bytes remain. -/
theorem macCommand_deserialize_needs_size (t : MacCommandType) (n : Nat)
    (ht : MacBodySize t = some n) (cid : Nat) (hcid : TypeFromCID cid = some t)
    (body : List Nat) :
    (body.length < n → MacCommand.Deserialize (cid :: body) = none) ∧
      (n ≤ body.length →
        (MacCommand.Deserialize (cid :: body)).map Prod.snd = some (n + 1)) := by
  cases t <;> simp only [MacBodySize] at ht <;>
    first
      | exact Option.noConfusion ht
      | ((injection ht with ht; subst ht;
          rcases body with _ | ⟨b0, _ | ⟨b1, _ | ⟨b2, _ | ⟨b3, _ | ⟨b4, body⟩⟩⟩⟩⟩) <;>
          constructor <;> intro hlen <;>
          simp_all [MacCommand.Deserialize, MacCommand.DeserializeBody,
            MacCommand.GetSerializedSize] <;>
          first
            | rfl
            | omega)

/-- Witness for C5: a two-byte `LinkCheckAns` body, once one byte short
and once complete. -/
theorem macCommand_deserialize_needs_size_witness :
    MacCommand.Deserialize [2, 7] = none ∧
      (MacCommand.Deserialize [2, 7, 8]).map Prod.snd = some (2 + 1) :=
  ⟨(macCommand_deserialize_needs_size .LINK_CHECK_ANS 2 rfl 2 (by decide) [7]).1
      (by decide),
   (macCommand_deserialize_needs_size .LINK_CHECK_ANS 2 rfl 2 (by decide) [7, 8]).2
      (by decide)⟩

/-- Updating a sub-band's clock does not change which frequencies it
contains. -/
theorem SubBand.contains_update (sb : SubBand) (x f : ℚ) :
    SubBand.Contains { sb with nextTransmitTime := x } f ↔ sb.Contains f :=
  Iff.rfl

/-- The sub-band the scan finds keeps its frequency range and duty
cycle across any `AddEventSubBands` update, and its clock either stays
put or moves to the stricter of the old clock and the event's computed
cooldown. -/
theorem getSubBand_after_addEvent (l : List SubBand) (f fq dur now : ℚ)
    (sb : SubBand) (hfind : GetSubBandFromFrequencyList l f = some sb) :
    ∃ sb2, GetSubBandFromFrequencyList (AddEventSubBands l fq dur now) f =
        some sb2 ∧
      sb2.firstFrequency = sb.firstFrequency ∧
      sb2.lastFrequency = sb.lastFrequency ∧
      sb2.dutyCycle = sb.dutyCycle ∧
      (sb2.nextTransmitTime = sb.nextTransmitTime ∨
        sb2.nextTransmitTime =
          max sb.nextTransmitTime (NextTransmissionTime now dur sb.dutyCycle)) := by
  induction l with
  | nil => exact absurd hfind (by simp [GetSubBandFromFrequencyList])
  | cons sb0 rest ih =>
    by_cases hq : sb0.Contains fq
    · by_cases hf : sb0.Contains f
      · simp only [GetSubBandFromFrequencyList, if_pos hf, Option.some.injEq] at hfind
        subst hfind
        refine ⟨{ sb0 with
          nextTransmitTime :=
            max sb0.nextTransmitTime
              (NextTransmissionTime now dur sb0.dutyCycle) },
          ?_, rfl, rfl, rfl, Or.inr rfl⟩
        simp only [AddEventSubBands, if_pos hq]
        exact if_pos hf
      · simp only [GetSubBandFromFrequencyList, if_neg hf] at hfind
        refine ⟨sb, ?_, rfl, rfl, rfl, Or.inl rfl⟩
        simp only [AddEventSubBands, if_pos hq, GetSubBandFromFrequencyList,
          SubBand.contains_update, if_neg hf]
        exact hfind
    · by_cases hf : sb0.Contains f
      · simp only [GetSubBandFromFrequencyList, if_pos hf, Option.some.injEq] at hfind
        subst hfind
        refine ⟨sb0, ?_, rfl, rfl, rfl, Or.inl rfl⟩
        simp only [AddEventSubBands, if_neg hq, GetSubBandFromFrequencyList, if_pos hf]
      · simp only [GetSubBandFromFrequencyList, if_neg hf] at hfind
        obtain ⟨sb2, hfind2, he⟩ := ih hfind
        refine ⟨sb2, ?_, he⟩
        simp only [AddEventSubBands, if_neg hq, GetSubBandFromFrequencyList, if_neg hf]
        exact hfind2

/-- When the event's frequency is the one being looked up, the scan
finds the same sub-band with its clock advanced to the stricter of the
stored time and the computed cooldown. -/
theorem getSubBand_after_addEvent_same (l : List SubBand) (f dur now : ℚ)
    (sb : SubBand) (hfind : GetSubBandFromFrequencyList l f = some sb) :
    GetSubBandFromFrequencyList (AddEventSubBands l f dur now) f =
      some { sb with
        nextTransmitTime :=
          max sb.nextTransmitTime (NextTransmissionTime now dur sb.dutyCycle) } := by
  induction l with
  | nil => exact absurd hfind (by simp [GetSubBandFromFrequencyList])
  | cons sb0 rest ih =>
    by_cases hf : sb0.Contains f
    · simp only [GetSubBandFromFrequencyList, if_pos hf, Option.some.injEq] at hfind
      subst hfind
      simp only [AddEventSubBands, if_pos hf]
      rw [GetSubBandFromFrequencyList.eq_def]
      exact if_pos hf
    · simp only [GetSubBandFromFrequencyList, if_neg hf] at hfind
      simp only [AddEventSubBands, if_neg hf, GetSubBandFromFrequencyList]
      exact ih hfind


/-- `AddEvent` updates the sub-band list through `AddEventSubBands`. -/
theorem addEvent_subBandList (h : LogicalLoraChannelHelper) (duration : ℚ)
    (channel : LogicalLoraChannel) (now : ℚ) :
    (h.AddEvent duration channel now).m_subBandList =
      AddEventSubBands h.m_subBandList channel.frequency duration now := rfl

/-- `AddEventSubBands` never moves any sub-band clock backward. -/
theorem addEventSubBands_mono (l : List SubBand) (fq dur now : ℚ) :
    List.Forall₂ (fun sb sb2 => sb.nextTransmitTime ≤ sb2.nextTransmitTime)
      l (AddEventSubBands l fq dur now) := by
  induction l with
  | nil => exact List.Forall₂.nil
  | cons sb0 rest ih =>
    by_cases hq : sb0.Contains fq
    · simp only [AddEventSubBands, if_pos hq]
      exact List.Forall₂.cons (le_max_left _ _)
        (List.forall₂_same.mpr fun a _ => le_refl _)
    · simp only [AddEventSubBands, if_neg hq]
      exact List.Forall₂.cons (le_refl _) ih

/-- C3: `AddEvent` never moves any sub-band clock or the aggregate
clock backward — when the newly computed cooldown would be earlier than
the stored one, the stricter (later) of the two is kept — so a second
`AddEvent` can never reduce a still-pending waiting time below the
remaining wait from an earlier event. -/
theorem addEvent_monotone (h : LogicalLoraChannelHelper) (duration : ℚ)
    (channel : LogicalLoraChannel) (now : ℚ) :
    List.Forall₂ (fun sb sb2 => sb.nextTransmitTime ≤ sb2.nextTransmitTime)
        h.m_subBandList (h.AddEvent duration channel now).m_subBandList ∧
      h.m_nextAggregatedTransmissionTime ≤
        (h.AddEvent duration channel now).m_nextAggregatedTransmissionTime ∧
      ∀ ch2 now2 w, h.GetWaitingTime ch2 now2 = some w →
        ∃ w2, (h.AddEvent duration channel now).GetWaitingTime ch2 now2 = some w2 ∧
          w ≤ w2 := by
  refine ⟨addEventSubBands_mono _ _ _ _, le_max_left _ _, ?_⟩
  intro ch2 now2 w hw
  unfold LogicalLoraChannelHelper.GetWaitingTime
    LogicalLoraChannelHelper.GetSubBandFromChannel
    LogicalLoraChannelHelper.GetSubBandFromFrequency at hw ⊢
  rcases hfind : GetSubBandFromFrequencyList h.m_subBandList ch2.frequency with _ | sb
  · rw [hfind] at hw
    exact absurd hw (by simp)
  · rw [hfind] at hw
    simp only [Option.map_some', Option.some.injEq] at hw
    obtain ⟨sb2, hfind2, _, _, _, hnext⟩ :=
      getSubBand_after_addEvent h.m_subBandList ch2.frequency channel.frequency
        duration now sb hfind
    have hle : sb.nextTransmitTime ≤ sb2.nextTransmitTime := by
      rcases hnext with he | he
      · exact he.ge
      · rw [he]
        exact le_max_left _ _
    refine ⟨max 0 (sb2.nextTransmitTime - now2), ?_, ?_⟩
    · rw [addEvent_subBandList, hfind2]
      rfl
    · rw [← hw]
      exact max_le_max (le_refl 0) (sub_le_sub_right hle _)

/-- Witness for C3 at a concrete manager, event and query. -/
theorem addEvent_monotone_witness :
    List.Forall₂ (fun sb sb2 => sb.nextTransmitTime ≤ sb2.nextTransmitTime)
        helperEx.m_subBandList (helperEx.AddEvent 1 chEx 0).m_subBandList ∧
      helperEx.m_nextAggregatedTransmissionTime ≤
        (helperEx.AddEvent 1 chEx 0).m_nextAggregatedTransmissionTime ∧
      ∃ w2, (helperEx.AddEvent 1 chEx 0).GetWaitingTime chEx 0 = some w2 ∧
        max 0 (sbEx.nextTransmitTime - 0) ≤ w2 :=
  ⟨(addEvent_monotone helperEx 1 chEx 0).1,
   (addEvent_monotone helperEx 1 chEx 0).2.1,
   (addEvent_monotone helperEx 1 chEx 0).2.2 chEx 0
      (max 0 (sbEx.nextTransmitTime - 0)) rfl⟩

/-- Sequences of events at times no later than `now` never create a
wait on a duty-cycle-1 sub-band. -/
theorem addEvents_dutyCycle_one (events : List TxEvent) :
    ∀ (h : LogicalLoraChannelHelper) (channel : LogicalLoraChannel) (sb : SubBand)
      (now : ℚ),
      h.GetSubBandFromChannel channel = some sb →
      sb.dutyCycle = 1 →
      sb.nextTransmitTime ≤ now →
      (∀ e ∈ events, e.time ≤ now) →
      (h.AddEvents events).GetWaitingTime channel now = some 0 := by
  induction events with
  | nil =>
    intro h channel sb now hfind hd hcool _
    unfold LogicalLoraChannelHelper.AddEvents LogicalLoraChannelHelper.GetWaitingTime
    rw [hfind]
    simp only [Option.map_some', Option.some.injEq]
    exact max_eq_left (by linarith)
  | cons e es ih =>
    intro h channel sb now hfind hd hcool htimes
    obtain ⟨sb2, hfind2, _, _, hdc, hnext⟩ :=
      getSubBand_after_addEvent h.m_subBandList channel.frequency e.channel.frequency
        e.duration e.time sb hfind
    have hfind2a : (h.AddEvent e.duration e.channel e.time).GetSubBandFromChannel
        channel = some sb2 := by
      unfold LogicalLoraChannelHelper.GetSubBandFromChannel
        LogicalLoraChannelHelper.GetSubBandFromFrequency
      rw [addEvent_subBandList]
      exact hfind2
    have hcool2 : sb2.nextTransmitTime ≤ now := by
      rcases hnext with he | he
      · rw [he]
        exact hcool
      · have hNt : NextTransmissionTime e.time e.duration sb.dutyCycle = e.time := by
          rw [hd]
          unfold NextTransmissionTime
          norm_num
        rw [he, hNt]
        exact max_le hcool (htimes e (List.mem_cons_self e es))
    have hres := ih (h.AddEvent e.duration e.channel e.time) channel sb2 now hfind2a
      (hdc.trans hd) hcool2 (fun x hx => htimes x (List.mem_cons_of_mem e hx))
    simpa only [LogicalLoraChannelHelper.AddEvents] using hres

/-- C2: on a sub-band with no pending cooldown, `AddEvent` of duration
`T` starting `now` moves the clock to `now + T*(1/d - 1)`, so
`GetWaitingTime` immediately afterwards returns `T*(1/d - 1)`; and a
duty cycle of 1 yields a zero wait regardless of prior `AddEvent`
calls made at times up to the query time. -/
theorem addEvent_waitingTime :
    (∀ (h : LogicalLoraChannelHelper) (channel : LogicalLoraChannel) (sb : SubBand)
        (T now : ℚ),
        h.GetSubBandFromChannel channel = some sb →
        0 < sb.dutyCycle → sb.dutyCycle ≤ 1 → 0 ≤ T →
        sb.nextTransmitTime ≤ now →
        (h.AddEvent T channel now).GetWaitingTime channel now =
          some (T * (1 / sb.dutyCycle - 1))) ∧
      ∀ (h : LogicalLoraChannelHelper) (channel : LogicalLoraChannel) (sb : SubBand)
        (events : List TxEvent) (now : ℚ),
        h.GetSubBandFromChannel channel = some sb →
        sb.dutyCycle = 1 →
        sb.nextTransmitTime ≤ now →
        (∀ e ∈ events, e.time ≤ now) →
        (h.AddEvents events).GetWaitingTime channel now = some 0 := by
  constructor
  · intro h channel sb T now hfind hd0 hd1 hT hcool
    have hmain := getSubBand_after_addEvent_same h.m_subBandList channel.frequency
      T now sb hfind
    have hx : 0 ≤ T * (1 / sb.dutyCycle - 1) :=
      mul_nonneg hT (by have := one_le_one_div hd0 hd1; linarith)
    unfold LogicalLoraChannelHelper.GetWaitingTime
      LogicalLoraChannelHelper.GetSubBandFromChannel
      LogicalLoraChannelHelper.GetSubBandFromFrequency
    rw [addEvent_subBandList, hmain]
    simp only [Option.map_some', Option.some.injEq]
    show max 0 (max sb.nextTransmitTime (NextTransmissionTime now T sb.dutyCycle) - now) =
      T * (1 / sb.dutyCycle - 1)
    unfold NextTransmissionTime
    have hinner : sb.nextTransmitTime ≤ now + T * (1 / sb.dutyCycle - 1) := by linarith
    rw [max_eq_right hinner, add_sub_cancel_left]
    exact max_eq_right hx
  · exact fun h channel sb events now => addEvents_dutyCycle_one events h channel sb now

/-- Witness for C2: the spec §8 example (duty cycle 0.01, 1-second
transmission from a clean clock gives a 99-second wait) and an
unrestricted band staying at zero wait after an event. -/
theorem addEvent_waitingTime_witness :
    (helperEx.AddEvent 1 chEx 0).GetWaitingTime chEx 0 =
        some (1 * (1 / sbEx.dutyCycle - 1)) ∧
      (helperEx.AddEvents [⟨2, chEx, 5⟩]).GetWaitingTime chEx 10 = some 0 :=
  ⟨addEvent_waitingTime.1 helperEx chEx sbEx 1 0 (by decide) (by decide) (by decide)
      (by decide) (by decide),
   addEvent_waitingTime.2 helperEx chEx sbEx [⟨2, chEx, 5⟩] 10
      (by decide) (by decide) (by decide) (by decide)⟩

/-- C6: `SetChannel` overwrites the indexed entry when the index is
inside the allocated channel list, fails when it is not, and a
successful result differs from the original state only in the channel
entry at that index; failure produces no state at all, so the manager
is left exactly as it was. -/
theorem setChannel_spec (h : LogicalLoraChannelHelper) (chIndex : Nat)
    (logicalChannel : LogicalLoraChannel) :
    (chIndex < h.m_channelList.length →
      h.SetChannel chIndex logicalChannel =
        some { h with
          m_channelList := h.m_channelList.set chIndex logicalChannel }) ∧
      (h.m_channelList.length ≤ chIndex →
        h.SetChannel chIndex logicalChannel = none) ∧
      ∀ h2, h.SetChannel chIndex logicalChannel = some h2 →
        h2.m_subBandList = h.m_subBandList ∧
        h2.m_nextAggregatedTransmissionTime = h.m_nextAggregatedTransmissionTime ∧
        h2.m_aggregatedDutyCycle = h.m_aggregatedDutyCycle ∧
        h2.m_channelList.length = h.m_channelList.length ∧
        h2.m_channelList[chIndex]? = some logicalChannel ∧
        ∀ j, j ≠ chIndex → h2.m_channelList[j]? = h.m_channelList[j]? := by
  refine ⟨fun hi => ?_, fun hi => ?_, ?_⟩
  · unfold LogicalLoraChannelHelper.SetChannel
    rw [if_pos hi]
  · unfold LogicalLoraChannelHelper.SetChannel
    rw [if_neg (Nat.not_lt.mpr hi)]
  · intro h2 hset
    unfold LogicalLoraChannelHelper.SetChannel at hset
    by_cases hi : chIndex < h.m_channelList.length
    · rw [if_pos hi, Option.some.injEq] at hset
      subst hset
      refine ⟨rfl, rfl, rfl, by simp, ?_, ?_⟩
      · exact List.getElem?_set_eq_of_lt logicalChannel hi
      · intro j hj
        exact List.getElem?_set_ne (Ne.symm hj)
    · rw [if_neg hi] at hset
      exact Option.noConfusion hset

/-- Witness for C6: overwrite at index 0 of a one-channel list succeeds
and index 5 fails. -/
theorem setChannel_spec_witness :
    helperEx.SetChannel 0 chEx =
        some { helperEx with m_channelList := helperEx.m_channelList.set 0 chEx } ∧
      helperEx.SetChannel 5 chEx = none :=
  ⟨(setChannel_spec helperEx 0 chEx).1 (by decide),
   (setChannel_spec helperEx 5 chEx).2.1 (by decide)⟩

/-- A successful scan yields the first containing sub-band: the found
band contains the frequency and every earlier registered band does
not. -/
theorem getSubBandList_first_match (l : List SubBand) (f : ℚ) (sb : SubBand)
    (hfind : GetSubBandFromFrequencyList l f = some sb) :
    sb.Contains f ∧
      ∃ i, l[i]? = some sb ∧
        ∀ (j : Nat) (sbj : SubBand), j < i → l[j]? = some sbj → ¬ sbj.Contains f := by
  induction l with
  | nil => exact absurd hfind (by simp [GetSubBandFromFrequencyList])
  | cons sb0 rest ih =>
    by_cases hc : sb0.Contains f
    · simp only [GetSubBandFromFrequencyList, if_pos hc, Option.some.injEq] at hfind
      subst hfind
      exact ⟨hc, 0, by simp, fun j sbj hj _ => absurd hj (Nat.not_lt_zero j)⟩
    · simp only [GetSubBandFromFrequencyList, if_neg hc] at hfind
      obtain ⟨hcs, i, hi, hprev⟩ := ih hfind
      refine ⟨hcs, i + 1, by simpa using hi, ?_⟩
      intro j sbj hj hget
      cases j with
      | zero =>
        simp only [List.getElem?_cons_zero, Option.some.injEq] at hget
        exact hget ▸ hc
      | succ j =>
        exact hprev j sbj (by omega) (by simpa using hget)

/-- The scan fails exactly when no registered sub-band contains the
frequency. -/
theorem getSubBandList_none_iff (l : List SubBand) (f : ℚ) :
    GetSubBandFromFrequencyList l f = none ↔ ∀ sb ∈ l, ¬ sb.Contains f := by
  induction l with
  | nil => simp [GetSubBandFromFrequencyList]
  | cons sb0 rest ih =>
    by_cases hc : sb0.Contains f <;>
      simp [GetSubBandFromFrequencyList, hc, ih]

/-- C7: `GetSubBandFromFrequency` returns the first registered sub-band
whose inclusive range contains the frequency (first match wins even
when ranges overlap), fails exactly when no registered sub-band
contains it, and `GetSubBandFromChannel` delegates to the frequency
lookup. -/
theorem getSubBandFromFrequency_spec (h : LogicalLoraChannelHelper) (f : ℚ) :
    (∀ sb, h.GetSubBandFromFrequency f = some sb →
      sb.Contains f ∧
        ∃ i, h.m_subBandList[i]? = some sb ∧
          ∀ (j : Nat) (sbj : SubBand), j < i → h.m_subBandList[j]? = some sbj → ¬ sbj.Contains f) ∧
      (h.GetSubBandFromFrequency f = none ↔
        ∀ sb ∈ h.m_subBandList, ¬ sb.Contains f) ∧
      ∀ channel : LogicalLoraChannel,
        h.GetSubBandFromChannel channel = h.GetSubBandFromFrequency channel.frequency :=
  ⟨fun sb hfind => getSubBandList_first_match h.m_subBandList f sb hfind,
   getSubBandList_none_iff h.m_subBandList f,
   fun _ => rfl⟩

/-- Witness for C7: the spec §8 example — 868.1 MHz resolves to the
[868.0, 868.6] MHz sub-band, 800.0 MHz has no covering sub-band. -/
theorem getSubBandFromFrequency_spec_witness :
    (sbEx.Contains (868) ∧
      ∃ i, helperEx.m_subBandList[i]? = some sbEx ∧
        ∀ (j : Nat) (sbj : SubBand), j < i → helperEx.m_subBandList[j]? = some sbj →
          ¬ sbj.Contains (868)) ∧
      (helperEx.GetSubBandFromFrequency 800 = none ↔
        ∀ sb ∈ helperEx.m_subBandList, ¬ sb.Contains 800) ∧
      helperEx.GetSubBandFromChannel chEx =
        helperEx.GetSubBandFromFrequency chEx.frequency :=
  ⟨(getSubBandFromFrequency_spec helperEx (868)).1 sbEx (by decide),
   (getSubBandFromFrequency_spec helperEx 800).2.1,
   (getSubBandFromFrequency_spec helperEx (868)).2.2 chEx⟩


/-- A fold whose step preserves the counter-list length preserves it
overall. -/
theorem foldl_length_invariant {α : Type} (f : List Nat → α → List Nat)
    (hf : ∀ acc st, (f acc st).length = acc.length) :
    ∀ (l : List α) (init : List Nat), (l.foldl f init).length = init.length
  | [], _ => rfl
  | st :: rest, init => by
    rw [List.foldl_cons, foldl_length_invariant f hf rest (f init st), hf]

/-- The counting loop always produces six counters. -/
theorem countPhy_length (m_packetTracker : List PacketStatus)
    (startTime stopTime : Int) (gwId : Int) :
    (LoraPacketTracker.CountPhyPacketsPerGw m_packetTracker startTime stopTime
      gwId).length = 6 := by
  unfold LoraPacketTracker.CountPhyPacketsPerGw
  rw [foldl_length_invariant _ ?_ m_packetTracker (List.replicate 6 0)]
  · simp
  · intro acc st
    dsimp only
    split
    · rcases hlk : st.outcomes.lookup gwId with _ | o
      · simp [hlk]
      · cases o <;> simp [hlk]
    · rfl

/-- The two duplicated counting loops agree: `PrintPhyPacketsPerGw`
renders the counters `CountPhyPacketsPerGw` computes. -/
theorem printPhy_loop_agrees (m_packetTracker : List PacketStatus)
    (startTime stopTime : Int) (gwId : Int) :
    LoraPacketTracker.PrintPhyPacketsPerGw m_packetTracker startTime stopTime
        gwId =
      (List.range 6).foldl
        (fun output i =>
          output ++
            toString ((LoraPacketTracker.CountPhyPacketsPerGw m_packetTracker
              startTime stopTime gwId).getD i 0) ++ " ") "" := rfl

/-- C9: the string `PrintPhyPacketsPerGw` returns is exactly the six
counters `CountPhyPacketsPerGw` computes on the same arguments, each
rendered in decimal and followed by a single space, in the same order
(total sent, received, interfered, no-more-receivers,
under-sensitivity, lost-because-tx). -/
theorem printPhyPacketsPerGw_spec (m_packetTracker : List PacketStatus)
    (startTime stopTime : Int) (gwId : Int) :
    (LoraPacketTracker.CountPhyPacketsPerGw m_packetTracker startTime stopTime
        gwId).length = 6 ∧
      ∀ n0 n1 n2 n3 n4 n5 : Nat,
        LoraPacketTracker.CountPhyPacketsPerGw m_packetTracker startTime stopTime
            gwId = [n0, n1, n2, n3, n4, n5] →
        LoraPacketTracker.PrintPhyPacketsPerGw m_packetTracker startTime stopTime
            gwId =
          toString n0 ++ " " ++ toString n1 ++ " " ++ toString n2 ++ " " ++
            toString n3 ++ " " ++ toString n4 ++ " " ++ toString n5 ++ " " := by
  refine ⟨countPhy_length m_packetTracker startTime stopTime gwId, ?_⟩
  intro n0 n1 n2 n3 n4 n5 hc
  rw [printPhy_loop_agrees, hc]
  rfl

/-- Witness for C9 on a two-packet tracker. -/
theorem printPhyPacketsPerGw_spec_witness :
    LoraPacketTracker.PrintPhyPacketsPerGw trackerEx 0 10 1 =
      toString 2 ++ " " ++ toString 1 ++ " " ++ toString 1 ++ " " ++
        toString 0 ++ " " ++ toString 0 ++ " " ++ toString 0 ++ " " :=
  (printPhyPacketsPerGw_spec trackerEx 0 10 1).2 2 1 1 0 0 0 (by decide)

/-- Wrapping at 32 bits is the identity on in-range values. -/
theorem wrap32_eq_self (x : Int) (h1 : -(2 ^ 31) ≤ x) (h2 : x ≤ 2 ^ 31 - 1) :
    wrap32 x = x := by
  unfold wrap32
  omega

/-- Wrapping at 64 bits is the identity on in-range values. -/
theorem wrap64_eq_self (x : Int) (h1 : -(2 ^ 63) ≤ x) (h2 : x ≤ 2 ^ 63 - 1) :
    wrap64 x = x := by
  unfold wrap64
  omega

/-- The non-wrapping inner-loop step is additive in the accumulator. -/
theorem delayStepIdeal_shift (a b : Int) (g : Nat) (dS c : Int)
    (st : MacPacketStatus) :
    DelayStepIdeal a b g (dS, c) st =
      (dS + (DelayStepIdeal a b g (0, 0) st).1,
        c + (DelayStepIdeal a b g (0, 0) st).2) := by
  unfold DelayStepIdeal
  dsimp only
  split_ifs <;> simp [Prod.ext_iff]

/-- From a cleared accumulator the non-wrapping step yields a
nonnegative delay contribution and a count contribution of 0 or 1. -/
theorem delayStepIdeal_zero_bounds (a b : Int) (g : Nat) (st : MacPacketStatus) :
    0 ≤ (DelayStepIdeal a b g (0, 0) st).1 ∧
      0 ≤ (DelayStepIdeal a b g (0, 0) st).2 ∧
      (DelayStepIdeal a b g (0, 0) st).2 ≤ 1 := by
  unfold DelayStepIdeal
  dsimp only
  split_ifs with hin hrecv
  · simp
  · push_neg at hrecv
    simp
    omega
  · simp

/-- The non-wrapping step never decreases either accumulator and
raises the count by at most one. -/
theorem delayStepIdeal_mono (a b : Int) (g : Nat) (s c : Int)
    (st : MacPacketStatus) :
    s ≤ (DelayStepIdeal a b g (s, c) st).1 ∧
      c ≤ (DelayStepIdeal a b g (s, c) st).2 ∧
      (DelayStepIdeal a b g (s, c) st).2 ≤ c + 1 := by
  obtain ⟨h1, h2, h3⟩ := delayStepIdeal_zero_bounds a b g st
  rw [delayStepIdeal_shift]
  dsimp only
  exact ⟨by linarith, by linarith, by linarith⟩

/-- A full non-wrapping pass is additive in the accumulator. -/
theorem delayPassIdeal_add (tr : List MacPacketStatus) (a b : Int) (g : Nat) :
    ∀ S C : Int, DelayPassIdeal tr a b g (0, 0) = (S, C) →
      ∀ dS c : Int, DelayPassIdeal tr a b g (dS, c) = (dS + S, c + C) := by
  induction tr with
  | nil =>
    intro S C h dS c
    simp only [DelayPassIdeal, List.foldl_nil] at h ⊢
    simp [Prod.ext_iff] at h ⊢
    omega
  | cons st rest ih =>
    intro S C h dS c
    unfold DelayPassIdeal at h ⊢
    rw [List.foldl_cons] at h ⊢
    rcases hst : DelayStepIdeal a b g (0, 0) st with ⟨s1, c1⟩
    rw [hst] at h
    rcases hp : rest.foldl (DelayStepIdeal a b g) (0, 0) with ⟨S0, C0⟩
    have h1 := ih S0 C0 hp s1 c1
    unfold DelayPassIdeal at h1
    rw [h1] at h
    rw [delayStepIdeal_shift a b g dS c st, hst]
    dsimp only
    have h2 := ih S0 C0 hp (dS + s1) (c + c1)
    unfold DelayPassIdeal at h2
    rw [h2]
    simp [Prod.ext_iff] at h ⊢
    omega

/-- One non-wrapping pass never produces a negative delay sum or
packet count. -/
theorem delayPassIdeal_nonneg (tr : List MacPacketStatus) (a b : Int) (g : Nat) :
    0 ≤ (DelayPassIdeal tr a b g (0, 0)).1 ∧
      0 ≤ (DelayPassIdeal tr a b g (0, 0)).2 := by
  induction tr with
  | nil => simp [DelayPassIdeal]
  | cons st rest ih =>
    unfold DelayPassIdeal at ih ⊢
    rw [List.foldl_cons]
    rcases hst : DelayStepIdeal a b g (0, 0) st with ⟨s1, c1⟩
    rcases hp : rest.foldl (DelayStepIdeal a b g) (0, 0) with ⟨S0, C0⟩
    have h1 := delayPassIdeal_add rest a b g S0 C0 hp s1 c1
    unfold DelayPassIdeal at h1
    rw [h1]
    rw [hp] at ih
    have hstep := delayStepIdeal_zero_bounds a b g st
    rw [hst] at hstep
    dsimp only at ih hstep ⊢
    constructor
    · exact add_nonneg hstep.1 ih.1
    · exact add_nonneg hstep.2.1 ih.2

/-- The non-wrapping pass never decreases either accumulator. -/
theorem delayPassIdeal_mono (l : List MacPacketStatus) (a b : Int) (g : Nat) :
    ∀ s c : Int, s ≤ (DelayPassIdeal l a b g (s, c)).1 ∧
      c ≤ (DelayPassIdeal l a b g (s, c)).2 := by
  induction l with
  | nil =>
    intro s c
    simp [DelayPassIdeal]
  | cons st rest ih =>
    intro s c
    unfold DelayPassIdeal at ih ⊢
    rw [List.foldl_cons]
    rcases hst : DelayStepIdeal a b g (s, c) st with ⟨s1, c1⟩
    have hm := delayStepIdeal_mono a b g s c st
    rw [hst] at hm
    have hrest := ih s1 c1
    exact ⟨le_trans hm.1 hrest.1, le_trans hm.2.1 hrest.2⟩

/-- On a `Time`-representable entry, with in-range accumulators whose
ideal result stays in range, the wrapping step agrees with the
non-wrapping one. -/
theorem delayStep_eq_ideal (a b : Int) (g : Nat) (s c : Int)
    (st : MacPacketStatus) (hst : TimesOk g st) (hs : 0 ≤ s) (hc : 0 ≤ c)
    (hsB : (DelayStepIdeal a b g (s, c) st).1 ≤ 2 ^ 63 - 1)
    (hcB : c + 1 ≤ 2 ^ 31 - 1) :
    DelayStep a b g (s, c) st = DelayStepIdeal a b g (s, c) st := by
  obtain ⟨hsend0, hsendM, hrecv0, hrecvM⟩ := hst
  simp only [TimeMax] at hsendM hrecvM
  unfold DelayStepIdeal at hsB ⊢
  unfold DelayStep
  dsimp only at hsB ⊢
  split_ifs at hsB ⊢ with hin hrecv
  · rw [wrap32_eq_self (c + 1) (by omega) (by omega),
      wrap32_eq_self (c + 1 - 1) (by omega) (by omega)]
  · simp only [TimeMax] at hrecv
    push_neg at hrecv
    dsimp only at hsB
    rw [wrap32_eq_self (c + 1) (by omega) (by omega),
      wrap64_eq_self (st.ReceptionTimeAt g - st.sendTime) (by omega) (by omega),
      wrap64_eq_self (s + (st.ReceptionTimeAt g - st.sendTime)) (by omega) (by omega)]
  · rfl

/-- On a `Time`-representable tracker, with in-range accumulators whose
ideal pass stays below the `int` and `Time` limits, the wrapping pass
agrees with the non-wrapping one. -/
theorem delayPass_eq_ideal (l : List MacPacketStatus) (a b : Int) (g : Nat) :
    ∀ s c : Int, (∀ st ∈ l, TimesOk g st) → 0 ≤ s → 0 ≤ c →
      (DelayPassIdeal l a b g (s, c)).1 ≤ 2 ^ 63 - 1 →
      (DelayPassIdeal l a b g (s, c)).2 ≤ 2 ^ 31 - 2 →
      DelayPass l a b g (s, c) = DelayPassIdeal l a b g (s, c) := by
  induction l with
  | nil =>
    intro s c _ _ _ _ _
    rfl
  | cons st rest ih =>
    intro s c htimes hs hc hsB hcB
    simp only [DelayPass, DelayPassIdeal, List.foldl_cons] at hsB hcB ⊢
    rcases hstI : DelayStepIdeal a b g (s, c) st with ⟨s1, c1⟩
    have hstep_m := delayStepIdeal_mono a b g s c st
    rw [hstI] at hstep_m hsB hcB
    have hfin := delayPassIdeal_mono rest a b g s1 c1
    unfold DelayPassIdeal at hfin
    have hb1 : (DelayStepIdeal a b g (s, c) st).1 ≤ 2 ^ 63 - 1 := by
      rw [hstI]
      exact le_trans hfin.1 hsB
    have hb2 : c + 1 ≤ 2 ^ 31 - 1 := by
      have h3 := hfin.2
      have h4 := hstep_m.2.1
      dsimp only at h3 h4
      omega
    have hstep_eq := delayStep_eq_ideal a b g s c st
      (htimes st (List.mem_cons_self st rest)) hs hc hb1 hb2
    rw [hstep_eq, hstI]
    have hrest := ih s1 c1 (fun x hx => htimes x (List.mem_cons_of_mem st hx))
      (le_trans hs hstep_m.1) (le_trans hc hstep_m.2.1) hsB hcB
    unfold DelayPass DelayPassIdeal at hrest
    exact hrest

/-- When the scaled single-pass totals stay below the `int` and `Time`
limits, iterating the wrapping pass from a cleared accumulator scales
one non-wrapping pass exactly. -/
theorem delayPass_iterate_eq_ideal (tr : List MacPacketStatus) (a b : Int)
    (g : Nat) (S C : Int) (hp : DelayPassIdeal tr a b g (0, 0) = (S, C))
    (htimes : ∀ st ∈ tr, TimesOk g st) (n : Nat)
    (hSn : (n : Int) * S ≤ 2 ^ 63 - 1) (hCn : (n : Int) * C ≤ 2 ^ 31 - 2) :
    ∀ k : Nat, k ≤ n →
      (DelayPass tr a b g)^[k] (0, 0) = ((k : Int) * S, (k : Int) * C) := by
  have hnn := delayPassIdeal_nonneg tr a b g
  rw [hp] at hnn
  have hS0 : 0 ≤ S := hnn.1
  have hC0 : 0 ≤ C := hnn.2
  intro k
  induction k with
  | zero =>
    intro _
    simp
  | succ k ih =>
    intro hk
    rw [Function.iterate_succ_apply', ih (by omega)]
    have hadd := delayPassIdeal_add tr a b g S C hp ((k : Int) * S) ((k : Int) * C)
    have hkle : (k : Int) + 1 ≤ (n : Int) := by exact_mod_cast hk
    have hb1 : (DelayPassIdeal tr a b g ((k : Int) * S, (k : Int) * C)).1 ≤
        2 ^ 63 - 1 := by
      rw [hadd]
      have h6 : ((k : Int) + 1) * S ≤ (n : Int) * S :=
        mul_le_mul_of_nonneg_right hkle hS0
      dsimp only
      nlinarith [h6, hSn]
    have hb2 : (DelayPassIdeal tr a b g ((k : Int) * S, (k : Int) * C)).2 ≤
        2 ^ 31 - 2 := by
      rw [hadd]
      have h6 : ((k : Int) + 1) * C ≤ (n : Int) * C :=
        mul_le_mul_of_nonneg_right hkle hC0
      dsimp only
      nlinarith [h6, hCn]
    rw [delayPass_eq_ideal tr a b g ((k : Int) * S) ((k : Int) * C) htimes
      (mul_nonneg (by positivity) hS0) (mul_nonneg (by positivity) hC0) hb1 hb2,
      hadd]
    simp [Prod.ext_iff]
    constructor <;> ring

/-- C10 (amended): provided the `uint32` bound `gwId + gwNum` of the
outer loop does not wrap (`gwId + gwNum < 2^32`), every tracker entry's
times are `Time`-representable, and the packet count and delay sum
accumulated over all `gwNum` passes stay within the 32-bit `int` and
64-bit `Time` ranges (no signed overflow of `packetsOutsideTransient`
or `delaySum`), `CountMacPacketsGloballyDelay` returns the same
average-delay string for every `gwNum ≥ 1` as for `gwNum = 1`: the
outer loop never reads its loop variable, so the delay sum and the
packet count both scale by `gwNum` and their quotient is unchanged. -/
theorem countMacPacketsGloballyDelay_gwNum_invariant
    (m_macPacketTracker : List MacPacketStatus) (startTime stopTime : Int)
    (gwId gwNum : Nat) (h1 : 1 ≤ gwNum) (h2 : gwId + gwNum < 2 ^ 32)
    (htimes : ∀ st ∈ m_macPacketTracker, TimesOk gwId st)
    (hsum : (gwNum : Int) *
        (DelayPassIdeal m_macPacketTracker startTime stopTime gwId (0, 0)).1 ≤
      2 ^ 63 - 1)
    (hcnt : (gwNum : Int) *
        (DelayPassIdeal m_macPacketTracker startTime stopTime gwId (0, 0)).2 ≤
      2 ^ 31 - 2) :
    LoraPacketTracker.CountMacPacketsGloballyDelay m_macPacketTracker startTime
        stopTime gwId gwNum =
      LoraPacketTracker.CountMacPacketsGloballyDelay m_macPacketTracker startTime
        stopTime gwId 1 := by
  unfold LoraPacketTracker.CountMacPacketsGloballyDelay
  have hit : OuterLoopIterations gwId gwNum = gwNum := by
    unfold OuterLoopIterations
    rw [Nat.mod_eq_of_lt h2]
    omega
  have hit1 : OuterLoopIterations gwId 1 = 1 := by
    unfold OuterLoopIterations
    rw [Nat.mod_eq_of_lt (by omega)]
    omega
  rcases hp : DelayPassIdeal m_macPacketTracker startTime stopTime gwId (0, 0)
    with ⟨S, C⟩
  have hnn := delayPassIdeal_nonneg m_macPacketTracker startTime stopTime gwId
  rw [hp] at hnn hsum hcnt
  obtain ⟨hS, hC⟩ := hnn
  rw [hit, hit1,
    delayPass_iterate_eq_ideal m_macPacketTracker startTime stopTime gwId S C hp
      htimes gwNum hsum hcnt gwNum (le_refl gwNum),
    delayPass_iterate_eq_ideal m_macPacketTracker startTime stopTime gwId S C hp
      htimes gwNum hsum hcnt 1 h1]
  dsimp only
  congr 1
  by_cases hCz : C = 0
  · subst hCz
    simp
  · have hCpos : 0 < C := lt_of_le_of_ne hC (Ne.symm hCz)
    have hgw : (0 : Int) < (gwNum : Int) := by
      exact_mod_cast Nat.lt_of_lt_of_le Nat.zero_lt_one h1
    rw [if_pos (by positivity), if_pos (by simpa using hCz)]
    rw [Nat.cast_one, one_mul, one_mul]
    rw [Int.tdiv_eq_ediv (by positivity) (by positivity),
      Int.tdiv_eq_ediv hS (le_of_lt hCpos)]
    exact Int.mul_ediv_mul_of_pos S C hgw

/-- Witness for the amended C10 at a concrete tracker and gateway
range. -/
theorem countMacPacketsGloballyDelay_gwNum_invariant_witness :
    LoraPacketTracker.CountMacPacketsGloballyDelay macTrackerEx 0 10 0 2 =
      LoraPacketTracker.CountMacPacketsGloballyDelay macTrackerEx 0 10 0 1 :=
  countMacPacketsGloballyDelay_gwNum_invariant macTrackerEx 0 10 0 2 (by decide)
    (by decide) (by decide) (by decide) (by decide)

/-- C10 counterexample: with `gwId = 2^32 - 2` and `gwNum = 3` the
`uint32` bound `gwId + gwNum` wraps to 1, the outer loop runs zero
times, and the reported average is `0.000000` instead of the `5.000000`
the `gwNum = 1` call reports — so the claim does not hold for every
`gwNum ≥ 1`. -/
theorem countMacPacketsGloballyDelay_gwNum_counterexample :
    LoraPacketTracker.CountMacPacketsGloballyDelay macTrackerWrap 0 10 4294967294 3 ≠
      LoraPacketTracker.CountMacPacketsGloballyDelay macTrackerWrap 0 10 4294967294 1 := by
  decide

end Lorawan
